import Mathlib

/-!
Verification of the jumptrace location-indexing and synchronization engine.

This file gives a shallow embedding of the core of the repository:

* the extraction algorithm turning reference-file text into a per-file,
  per-line index of location entries (realize.ts, extractFileLocations);
* path normalization (realize.ts, getActiveEditorFilePath);
* the selection-change event handler state machine (extension.ts,
  selectionChangeDisposable), with the re-entrancy latch, role resolution,
  the no-op filter, the assistant-to-master lookup and the
  master-to-assistant upward scan;
* the two mode commands (extension.ts, jumptrace.close and
  jumptrace.switchover).

JavaScript Map objects are embedded as association lists with Map get/set
semantics.  Regular expressions appearing in the configuration are embedded
as abstract functions (a skip predicate and a parse function returning the
two capture groups); the concrete platform-default regexes of extension.ts
are implemented explicitly on character lists.  Editor-host side effects
(reveal, decorate, open) are recorded as an action trace.  Asynchronous
throws are modelled with an explicit error result so that the
finally-semantics of the handlers is visible.
-/

namespace JumpTrace

/-! ## Association lists with JavaScript Map get/set semantics -/

def mapGet {α β : Type} [DecidableEq α] : List (α × β) → α → Option β
  | [], _ => none
  | (k, v) :: rest, a => if k = a then some v else mapGet rest a

def mapSet {α β : Type} [DecidableEq α] : List (α × β) → α → β → List (α × β)
  | [], a, b => [(a, b)]
  | (k, v) :: rest, a, b => if k = a then (a, b) :: rest else (k, v) :: mapSet rest a b

theorem mapGet_mapSet_self {α β : Type} [DecidableEq α] (m : List (α × β)) (a : α) (b : β) :
    mapGet (mapSet m a b) a = some b := by
  induction m with
  | nil => simp [mapGet, mapSet]
  | cons hd tl ih =>
      obtain ⟨k, v⟩ := hd
      by_cases h : k = a
      · simp [mapGet, mapSet, h]
      · simp [mapGet, mapSet, h, ih]

theorem mapGet_mapSet_ne {α β : Type} [DecidableEq α] (m : List (α × β)) (a a' : α) (b : β)
    (h : a ≠ a') : mapGet (mapSet m a b) a' = mapGet m a' := by
  induction m with
  | nil => simp [mapGet, mapSet, h]
  | cons hd tl ih =>
      obtain ⟨k, v⟩ := hd
      by_cases hk : k = a
      · subst hk
        simp [mapGet, mapSet, h]
      · simp only [mapSet, if_neg hk]
        by_cases hk' : k = a'
        · simp [mapGet, hk']
        · simp [mapGet, hk', ih]

/-! ## Data model

FileLocationData is the LocationEntry of the spec: originalFileIndex is the
zero-based reference-file line of the token (logLineOffset), and
highlightLineCount is the precomputed highlight span (highlightSpan). -/

structure FileLocationData where
  originalFileIndex : Nat
  highlightLineCount : Nat
deriving DecidableEq, Repr

abbrev LineMap := List (Nat × FileLocationData)

abbrev LocationsMap := List (String × LineMap)

/-- Reads the nested map: fileLocationsMap.get(path) followed by get(line). -/
def mapGet2 (m : LocationsMap) (p : String) (n : Nat) : Option FileLocationData :=
  match mapGet m p with
  | none => none
  | some inner => mapGet inner n

/-- Embeds the write of extractFileLocations: fetch the inner map for the
path (creating it when absent, as the source does), then set the line key. -/
def mapSet2 (m : LocationsMap) (p : String) (n : Nat) (d : FileLocationData) : LocationsMap :=
  mapSet m p (mapSet ((mapGet m p).getD []) n d)

theorem mapGet2_mapSet2_self (m : LocationsMap) (p : String) (n : Nat) (d : FileLocationData) :
    mapGet2 (mapSet2 m p n d) p n = some d := by
  simp [mapGet2, mapSet2, mapGet_mapSet_self, mapGet_mapSet_self]

theorem mapGet2_mapSet2_ne (m : LocationsMap) (p p' : String) (n n' : Nat)
    (d : FileLocationData) (h : ¬ (p = p' ∧ n = n')) :
    mapGet2 (mapSet2 m p n d) p' n' = mapGet2 m p' n' := by
  by_cases hp : p = p'
  · subst hp
    have hn : n ≠ n' := fun hc => h ⟨rfl, hc⟩
    simp only [mapGet2, mapSet2, mapGet_mapSet_self]
    cases hm : mapGet m p with
    | none => simp [hm, mapGet_mapSet_ne _ _ _ _ hn, mapGet, hn]
    | some inner => simp [hm, mapGet_mapSet_ne _ _ _ _ hn]
  · simp [mapGet2, mapSet2, mapGet_mapSet_ne _ _ _ _ hp]

theorem mapGet_mapSet2_isSome (m : LocationsMap) (p p' : String) (n : Nat)
    (d : FileLocationData) (h : (mapGet (mapSet2 m p n d) p').isSome) :
    p = p' ∨ (mapGet m p').isSome := by
  by_cases hp : p = p'
  · exact Or.inl hp
  · right
    rwa [mapSet2, mapGet_mapSet_ne _ _ _ _ hp] at h

/-! ## Line splitting

The source splits the reference-file content with the regular expression
matching an optional carriage return followed by a newline. -/

def splitLinesChars : List Char → List (List Char)
  | [] => [[]]
  | '\r' :: '\n' :: rest => [] :: splitLinesChars rest
  | '\n' :: rest => [] :: splitLinesChars rest
  | c :: rest =>
      match splitLinesChars rest with
      | [] => [[c]]
      | seg :: segs => (c :: seg) :: segs

def splitLines (s : String) : List String :=
  (splitLinesChars s.data).map (fun l => ⟨l⟩)

/-! ## Extraction (realize.ts, extractFileLocations)

The loop scans the lines from the last to the first, maintaining
lastMatchedLineIndex (initially the line count).  Skipped lines leave it
unchanged; a path match writes an entry whose span is the distance to the
previous boundary and moves the boundary; any other line moves the boundary.

The regular expressions are abstracted: skip decides the SkipRegExp test and
parse returns the two capture groups of pathRegex (file path and parsed line
number) when the line matches with both groups present. -/

def extractScan (skip : String → Bool) (parse : String → Option (String × Nat))
    (lines : List String) : Nat → Nat → LocationsMap → LocationsMap
  | 0, _, m => m
  | k + 1, lastMatchedLineIndex, m =>
      let line := lines.getD k ""
      if skip line then
        extractScan skip parse lines k lastMatchedLineIndex m
      else
        match parse line with
        | some (p, n) =>
            extractScan skip parse lines k k
              (mapSet2 m p n ⟨k, lastMatchedLineIndex - k⟩)
        | none => extractScan skip parse lines k k m

/-- Runs the extraction loop over a list of lines, as the source does after
reading and splitting the file content. -/
def extractLines (skip : String → Bool) (parse : String → Option (String × Nat))
    (lines : List String) (m : LocationsMap) : LocationsMap :=
  extractScan skip parse lines lines.length lines.length m

/-- Shallow embedding of extractFileLocations.  The file system is an
explicit input: fileExists is the existsSync test, and content is the result
of the readFile call (an error value when the read fails).  On either
failure the source shows a message and returns with the map untouched. -/
def extractFileLocations (fileExists : Bool) (content : Except String String)
    (skip : String → Bool) (parse : String → Option (String × Nat))
    (m : LocationsMap) : LocationsMap :=
  if fileExists = false then m
  else
    match content with
    | Except.error _ => m
    | Except.ok text => extractLines skip parse (splitLines text) m

/-- Property of line j of the file: the line is not skipped and the path
regex matches it with capture groups (p, n). -/
def matchesAt (skip : String → Bool) (parse : String → Option (String × Nat))
    (lines : List String) (p : String) (n : Nat) (j : Nat) : Prop :=
  skip (lines.getD j "") = false ∧ parse (lines.getD j "") = some (p, n)

instance (skip : String → Bool) (parse : String → Option (String × Nat))
    (lines : List String) (p : String) (n : Nat) (j : Nat) :
    Decidable (matchesAt skip parse lines p n j) := by
  unfold matchesAt
  infer_instance

/-! ## Path normalization (realize.ts, getActiveEditorFilePath) -/

/-- Embeds the global replacement of backslashes by forward slashes. -/
def normSlash (c : Char) : Char := if c = '\\' then '/' else c

/-- Character class of the drive-letter regex, ASCII letters only. -/
def isAsciiAlpha (c : Char) : Bool :=
  (97 ≤ c.toNat ∧ c.toNat ≤ 122) ∨ (65 ≤ c.toNat ∧ c.toNat ≤ 90)

/-- Characters matched by an unflagged JavaScript dot: everything except
the line terminators. -/
def dotOk (c : Char) : Bool :=
  c ≠ '\n' ∧ c ≠ '\r' ∧ c.toNat ≠ 8232 ∧ c.toNat ≠ 8233

/-- ASCII upper-casing as applied by toUpperCase to a matched drive letter. -/
def upperChar (c : Char) : Char :=
  if 97 ≤ c.toNat ∧ c.toNat ≤ 122 then Char.ofNat (c.toNat - 32) else c

/-- Embeds the whole-string test of the drive-letter regex (an ASCII
letter, a colon, a slash, then any run of dot-matched characters) and the
upper-casing of the matched drive letter; a non-matching string is returned
unchanged. -/
def winDrive (nl : List Char) : List Char :=
  match nl with
  | c :: d :: s :: tail =>
      if d = ':' ∧ s = '/' ∧ isAsciiAlpha c ∧ tail.all dotOk then
        upperChar c :: ':' :: '/' :: tail
      else nl
  | _ => nl

/-- Core of getActiveEditorFilePath on the character list of the path:
replace backslashes with slashes, then on Windows upper-case a leading
single-letter drive prefix when the drive-letter regex matches the whole
string. -/
def normalizeChars (osName : String) (l : List Char) : List Char :=
  if osName = "Windows" then winDrive (l.map normSlash) else l.map normSlash

/-- Shallow embedding of getActiveEditorFilePath: undefined for an empty
path, otherwise the normalized path. -/
def getActiveEditorFilePath (osName : String) (filePath : String) : Option String :=
  if filePath = "" then none
  else some ⟨normalizeChars osName filePath.data⟩

/-! ## Concrete platform-default regular expressions (extension.ts)

defaultSkip embeds the default skip regex (a line starting with a space);
defaultParse embeds the unknown-platform default path regex (lazy prefix,
colon, digits, end of line) and linuxParse the Linux/macOS default (the
same with the path required to start with a slash or backslash). -/

def isDigitChar (c : Char) : Bool := 48 ≤ c.toNat ∧ c.toNat ≤ 57

def natOfDigits : List Char → Nat → Nat
  | [], acc => acc
  | c :: rest, acc => natOfDigits rest (acc * 10 + (c.toNat - 48))

/-- Lazy scan of the regex tail: find the first colon whose suffix is a
nonempty run of digits ending the line, extending the lazily matched prefix
one dot-matched character at a time exactly as the backtracking engine
does. -/
def lazyColonSplit (acc : List Char) : List Char → Option (List Char × Nat)
  | [] => none
  | c :: rest =>
      if c = ':' ∧ rest ≠ [] ∧ rest.all isDigitChar then
        some (acc.reverse, natOfDigits rest 0)
      else if dotOk c then lazyColonSplit (c :: acc) rest
      else none

def defaultSkip (line : String) : Bool :=
  match line.data with
  | c :: _ => c = ' '
  | [] => false

def defaultParse (line : String) : Option (String × Nat) :=
  (lazyColonSplit [] line.data).map (fun r => (⟨r.1⟩, r.2))

def linuxParse (line : String) : Option (String × Nat) :=
  match line.data with
  | c :: rest =>
      if c = '/' ∨ c = '\\' then (lazyColonSplit [c] rest).map (fun r => (⟨r.1⟩, r.2))
      else none
  | [] => none

/-! ## Extraction lemmas -/

/-- Index of the topmost (smallest) line below k that is a non-skipped
match for the key (p, n), when one exists. -/
def leastMatchBelow (skip : String → Bool) (parse : String → Option (String × Nat))
    (lines : List String) (p : String) (n : Nat) : Nat → Option Nat
  | 0 => none
  | k + 1 =>
      match leastMatchBelow skip parse lines p n k with
      | some j => some j
      | none => if matchesAt skip parse lines p n k then some k else none

theorem leastMatchBelow_none (skip : String → Bool) (parse : String → Option (String × Nat))
    (lines : List String) (p : String) (n : Nat) :
    ∀ k, leastMatchBelow skip parse lines p n k = none →
      ∀ j, j < k → ¬ matchesAt skip parse lines p n j := by
  intro k
  induction k with
  | zero => intro _ j hj; exact absurd hj (Nat.not_lt_zero j)
  | succ k ih =>
      intro h j hj
      rw [leastMatchBelow] at h
      cases hlow : leastMatchBelow skip parse lines p n k with
      | some j' => rw [hlow] at h; simp at h
      | none =>
          rw [hlow] at h
          by_cases hm : matchesAt skip parse lines p n k
          · simp [hm] at h
          · rcases Nat.lt_succ_iff_lt_or_eq.mp hj with hlt | heq
            · exact ih hlow j hlt
            · rw [heq]; exact hm

theorem leastMatchBelow_some (skip : String → Bool) (parse : String → Option (String × Nat))
    (lines : List String) (p : String) (n : Nat) :
    ∀ k j, leastMatchBelow skip parse lines p n k = some j →
      j < k ∧ matchesAt skip parse lines p n j ∧
        ∀ i, i < j → ¬ matchesAt skip parse lines p n i := by
  intro k
  induction k with
  | zero => intro j h; rw [leastMatchBelow] at h; simp at h
  | succ k ih =>
      intro j h
      rw [leastMatchBelow] at h
      cases hlow : leastMatchBelow skip parse lines p n k with
      | some j' =>
          rw [hlow] at h
          injection h with hjj
          subst hjj
          obtain ⟨h1, h2, h3⟩ := ih j' hlow
          exact ⟨Nat.lt_succ_of_lt h1, h2, h3⟩
      | none =>
          rw [hlow] at h
          by_cases hm : matchesAt skip parse lines p n k
          · simp only [hm, if_pos] at h
            obtain rfl : k = j := by simpa using h
            exact ⟨Nat.lt_succ_self k, hm,
              fun i hi => leastMatchBelow_none skip parse lines p n k hlow i hi⟩
          · simp [hm] at h

theorem extractScan_succ (skip : String → Bool) (parse : String → Option (String × Nat))
    (lines : List String) (k lastB : Nat) (m : LocationsMap) :
    extractScan skip parse lines (k + 1) lastB m =
      if skip (lines.getD k "") then
        extractScan skip parse lines k lastB m
      else
        match parse (lines.getD k "") with
        | some (p, n) =>
            extractScan skip parse lines k k (mapSet2 m p n ⟨k, lastB - k⟩)
        | none => extractScan skip parse lines k k m := rfl

theorem leastMatchBelow_succ_of_not (skip : String → Bool)
    (parse : String → Option (String × Nat)) (lines : List String) (p : String) (n : Nat)
    (k : Nat) (hnm : ¬ matchesAt skip parse lines p n k) :
    leastMatchBelow skip parse lines p n (k + 1)
      = leastMatchBelow skip parse lines p n k := by
  rw [leastMatchBelow]
  cases hlow : leastMatchBelow skip parse lines p n k with
  | some j => rfl
  | none => simp [hnm]

theorem extractScan_get2 (skip : String → Bool) (parse : String → Option (String × Nat))
    (lines : List String) (p : String) (n : Nat) :
    ∀ (k lastB : Nat) (m : LocationsMap),
      (leastMatchBelow skip parse lines p n k = none →
        mapGet2 (extractScan skip parse lines k lastB m) p n = mapGet2 m p n) ∧
      (∀ j, leastMatchBelow skip parse lines p n k = some j →
        ∃ c, mapGet2 (extractScan skip parse lines k lastB m) p n = some ⟨j, c⟩) := by
  intro k
  induction k with
  | zero =>
      intro lastB m
      refine ⟨fun _ => by rw [extractScan], fun j hj => ?_⟩
      rw [leastMatchBelow] at hj; simp at hj
  | succ k ih =>
      intro lastB m
      by_cases hskip : skip (lines.getD k "") = true
      · have hscan : extractScan skip parse lines (k + 1) lastB m
            = extractScan skip parse lines k lastB m := by
          rw [extractScan_succ, if_pos hskip]
        have hnm : ¬ matchesAt skip parse lines p n k := by
          intro hmat; rw [hmat.1] at hskip; exact Bool.false_ne_true hskip
        rw [hscan, leastMatchBelow_succ_of_not skip parse lines p n k hnm]
        exact ih lastB m
      · have hskipf : ¬ skip (lines.getD k "") = true := hskip
        have hskip' : skip (lines.getD k "") = false := by simpa using hskip
        cases hparse : parse (lines.getD k "") with
        | none =>
            have hscan : extractScan skip parse lines (k + 1) lastB m
                = extractScan skip parse lines k k m := by
              rw [extractScan_succ, if_neg hskipf, hparse]
            have hnm : ¬ matchesAt skip parse lines p n k := by
              intro hmat; rw [hmat.2] at hparse; simp at hparse
            rw [hscan, leastMatchBelow_succ_of_not skip parse lines p n k hnm]
            exact ih k m
        | some pr =>
            obtain ⟨p', n'⟩ := pr
            have hscan : extractScan skip parse lines (k + 1) lastB m
                = extractScan skip parse lines k k
                    (mapSet2 m p' n' ⟨k, lastB - k⟩) := by
              rw [extractScan_succ, if_neg hskipf, hparse]
            by_cases hkey : p' = p ∧ n' = n
            · obtain ⟨rfl, rfl⟩ := hkey
              have hmat : matchesAt skip parse lines p' n' k := ⟨hskip', hparse⟩
              cases hlow : leastMatchBelow skip parse lines p' n' k with
              | some j =>
                  have hlmb : leastMatchBelow skip parse lines p' n' (k + 1) = some j := by
                    rw [leastMatchBelow, hlow]
                  refine ⟨fun hc => ?_, fun j' hj' => ?_⟩
                  · rw [hlmb] at hc; simp at hc
                  · rw [hlmb] at hj'
                    injection hj' with hjj
                    rw [hscan, ← hjj]
                    exact (ih k (mapSet2 m p' n' ⟨k, lastB - k⟩)).2 j hlow
              | none =>
                  have hlmb : leastMatchBelow skip parse lines p' n' (k + 1) = some k := by
                    rw [leastMatchBelow, hlow]; simp [hmat]
                  refine ⟨fun hc => ?_, fun j' hj' => ?_⟩
                  · rw [hlmb] at hc; simp at hc
                  · rw [hlmb] at hj'
                    injection hj' with hjj
                    rw [hscan, ← hjj]
                    have hrec := (ih k (mapSet2 m p' n' ⟨k, lastB - k⟩)).1 hlow
                    rw [hrec, mapGet2_mapSet2_self]
                    exact ⟨lastB - k, rfl⟩
            · have hnm : ¬ matchesAt skip parse lines p n k := by
                intro hmat
                rw [hmat.2] at hparse
                have heq := Option.some.inj hparse
                exact hkey ⟨(congrArg Prod.fst heq).symm, (congrArg Prod.snd heq).symm⟩
              have hlmb := leastMatchBelow_succ_of_not skip parse lines p n k hnm
              refine ⟨fun hc => ?_, fun j' hj' => ?_⟩
              · rw [hlmb] at hc
                rw [hscan,
                  (ih k (mapSet2 m p' n' ⟨k, lastB - k⟩)).1 hc,
                  mapGet2_mapSet2_ne m p' p n' n _ hkey]
              · rw [hlmb] at hj'
                rw [hscan]
                exact (ih k (mapSet2 m p' n' ⟨k, lastB - k⟩)).2 j' hj'

/-- C1 auxiliary: on a fresh index, a retained entry records the least
matching line as its offset. -/
theorem extractLines_topmost (skip : String → Bool) (parse : String → Option (String × Nat))
    (lines : List String) (p : String) (n : Nat) (e : FileLocationData)
    (h : mapGet2 (extractLines skip parse lines []) p n = some e) :
    matchesAt skip parse lines p n e.originalFileIndex ∧
      e.originalFileIndex < lines.length ∧
      ∀ j, j < lines.length → matchesAt skip parse lines p n j → e.originalFileIndex ≤ j := by
  unfold extractLines at h
  cases hlow : leastMatchBelow skip parse lines p n lines.length with
  | none =>
      have hu := (extractScan_get2 skip parse lines p n lines.length lines.length []).1 hlow
      rw [hu] at h
      simp [mapGet2, mapGet] at h
  | some j =>
      obtain ⟨c, hc⟩ :=
        (extractScan_get2 skip parse lines p n lines.length lines.length []).2 j hlow
      rw [hc] at h
      obtain rfl : (⟨j, c⟩ : FileLocationData) = e := by simpa using h
      obtain ⟨hjlt, hjm, hmin⟩ := leastMatchBelow_some skip parse lines p n lines.length j hlow
      refine ⟨hjm, hjlt, fun j' _ hj'm => ?_⟩
      by_contra hlt
      exact hmin j' (Nat.lt_of_not_le hlt) hj'm

/-- C1: for every reference-file text, path regex and skip regex, the entry
retained for a (path, line) key is the one for its topmost (earliest-in-file)
occurrence: its stored line offset is a matching line and is minimal among
all matching lines of the file. -/
theorem claim1_extraction_topmost (skip : String → Bool)
    (parse : String → Option (String × Nat)) (text : String) (p : String) (n : Nat)
    (e : FileLocationData)
    (h : mapGet2 (extractFileLocations true (Except.ok text) skip parse []) p n = some e) :
    matchesAt skip parse (splitLines text) p n e.originalFileIndex ∧
      e.originalFileIndex < (splitLines text).length ∧
      ∀ j, j < (splitLines text).length → matchesAt skip parse (splitLines text) p n j →
        e.originalFileIndex ≤ j := by
  exact extractLines_topmost skip parse (splitLines text) p n e h

/-- C1 witness: in the two-line file where the token a.c:5 appears on lines
0 and 2, the retained entry has offset 0, which matches and is topmost. -/
theorem claim1_extraction_topmost_witness :
    matchesAt defaultSkip defaultParse (splitLines "a.c:5\nz\na.c:5") "a.c" 5
        (FileLocationData.mk 0 1).originalFileIndex ∧
      (FileLocationData.mk 0 1).originalFileIndex < (splitLines "a.c:5\nz\na.c:5").length ∧
      ∀ j, j < (splitLines "a.c:5\nz\na.c:5").length →
        matchesAt defaultSkip defaultParse (splitLines "a.c:5\nz\na.c:5") "a.c" 5 j →
        (FileLocationData.mk 0 1).originalFileIndex ≤ j :=
  claim1_extraction_topmost defaultSkip defaultParse "a.c:5\nz\na.c:5" "a.c" 5
    ⟨0, 1⟩ (by decide)

/-- C2 counterexample: on the three-line reference text of the claim, the
entry for a.c:1 does not have highlight span 3 as the claim states. -/
theorem claim2_span_counterexample :
    mapGet2 (extractFileLocations true (Except.ok "a.c:1\n  note\na.c:2")
        defaultSkip defaultParse []) "a.c" 1 ≠ some ⟨0, 3⟩ := by
  decide

/-- C2 amended: extracting the three-line text yields exactly the entries
a.c:1 with offset 0 and span 2 (the token line plus the skipped line below
it; the matched bottom token resets the boundary) and a.c:2 with offset 2
and span 1. -/
theorem claim2_amended_spans :
    extractFileLocations true (Except.ok "a.c:1\n  note\na.c:2")
        defaultSkip defaultParse []
      = [("a.c", [(2, ⟨2, 1⟩), (1, ⟨0, 2⟩)])] := by
  decide

/-- C6: when the reference file does not exist, or reading it fails,
extraction returns with the index exactly as it was before the call. -/
theorem claim6_failure_leaves_index_untouched :
    ∀ (content : Except String String) (skip : String → Bool)
      (parse : String → Option (String × Nat)) (m : LocationsMap),
      extractFileLocations false content skip parse m = m ∧
      ∀ msg : String, extractFileLocations true (Except.error msg) skip parse m = m := by
  intro content skip parse m
  exact ⟨rfl, fun _ => rfl⟩

theorem extractScan_span (skip : String → Bool) (parse : String → Option (String × Nat))
    (lines : List String) :
    ∀ (k lastB : Nat) (m : LocationsMap), k ≤ lastB → ∀ (p : String) (n : Nat)
      (e : FileLocationData),
      mapGet2 (extractScan skip parse lines k lastB m) p n = some e →
      mapGet2 m p n = some e ∨ 1 ≤ e.highlightLineCount := by
  intro k
  induction k with
  | zero =>
      intro lastB m _ p n e h
      rw [extractScan] at h
      exact Or.inl h
  | succ k ih =>
      intro lastB m hk p n e h
      by_cases hskip : skip (lines.getD k "") = true
      · rw [extractScan_succ, if_pos hskip] at h
        exact ih lastB m (Nat.le_of_succ_le hk) p n e h
      · cases hparse : parse (lines.getD k "") with
        | none =>
            rw [extractScan_succ, if_neg hskip, hparse] at h
            exact ih k m (Nat.le_refl k) p n e h
        | some pr =>
            obtain ⟨p', n'⟩ := pr
            rw [extractScan_succ, if_neg hskip, hparse] at h
            rcases ih k _ (Nat.le_refl k) p n e h with hin | hspan
            · by_cases hkey : p' = p ∧ n' = n
              · obtain ⟨rfl, rfl⟩ := hkey
                rw [mapGet2_mapSet2_self] at hin
                obtain rfl : (⟨k, lastB - k⟩ : FileLocationData) = e := by simpa using hin
                right
                show 1 ≤ lastB - k
                omega
              · rw [mapGet2_mapSet2_ne m p' p n' n _ hkey] at hin
                exact Or.inl hin
            · exact Or.inr hspan

/-- C9: every entry stored by extraction into a fresh index has highlight
span at least 1, for every reference text, path regex and skip regex. -/
theorem claim9_span_ge_one (fileExists : Bool) (content : Except String String)
    (skip : String → Bool) (parse : String → Option (String × Nat))
    (p : String) (n : Nat) (e : FileLocationData)
    (h : mapGet2 (extractFileLocations fileExists content skip parse []) p n = some e) :
    1 ≤ e.highlightLineCount := by
  have hbase : mapGet2 ([] : LocationsMap) p n = none := by simp [mapGet2, mapGet]
  cases fileExists with
  | false =>
      rw [show extractFileLocations false content skip parse [] = [] from rfl] at h
      rw [hbase] at h; cases h
  | true =>
      cases content with
      | error msg =>
          rw [show extractFileLocations true (Except.error msg) skip parse [] = []
            from rfl] at h
          rw [hbase] at h; cases h
      | ok text =>
          have h' : mapGet2 (extractLines skip parse (splitLines text) []) p n = some e := h
          unfold extractLines at h'
          rcases extractScan_span skip parse (splitLines text) (splitLines text).length
              (splitLines text).length [] (Nat.le_refl _) p n e h' with hin | hspan
          · rw [hbase] at hin; cases hin
          · exact hspan

/-- C9 witness: the single entry extracted from the one-line file has
highlight span 1, which is at least 1. -/
theorem claim9_span_ge_one_witness :
    1 ≤ (FileLocationData.mk 0 1).highlightLineCount :=
  claim9_span_ge_one true (Except.ok "a.c:5") defaultSkip defaultParse "a.c" 5
    ⟨0, 1⟩ (by decide)

theorem extractScan_keys (skip : String → Bool) (parse : String → Option (String × Nat))
    (lines : List String) :
    ∀ (k lastB : Nat) (m : LocationsMap) (key : String),
      (mapGet (extractScan skip parse lines k lastB m) key).isSome →
      (mapGet m key).isSome ∨
        ∃ i nn, i < k ∧ skip (lines.getD i "") = false ∧
          parse (lines.getD i "") = some (key, nn) := by
  intro k
  induction k with
  | zero =>
      intro lastB m key h
      rw [extractScan] at h
      exact Or.inl h
  | succ k ih =>
      intro lastB m key h
      by_cases hskip : skip (lines.getD k "") = true
      · rw [extractScan_succ, if_pos hskip] at h
        rcases ih lastB m key h with hin | ⟨i, nn, hi, h1, h2⟩
        · exact Or.inl hin
        · exact Or.inr ⟨i, nn, Nat.lt_succ_of_lt hi, h1, h2⟩
      · have hskip' : skip (lines.getD k "") = false := by simpa using hskip
        cases hparse : parse (lines.getD k "") with
        | none =>
            rw [extractScan_succ, if_neg hskip, hparse] at h
            rcases ih k m key h with hin | ⟨i, nn, hi, h1, h2⟩
            · exact Or.inl hin
            · exact Or.inr ⟨i, nn, Nat.lt_succ_of_lt hi, h1, h2⟩
        | some pr =>
            obtain ⟨p', n'⟩ := pr
            rw [extractScan_succ, if_neg hskip, hparse] at h
            rcases ih k _ key h with hin | ⟨i, nn, hi, h1, h2⟩
            · rcases mapGet_mapSet2_isSome m p' key n' _ hin with rfl | hold
              · exact Or.inr ⟨k, n', Nat.lt_succ_self k, hskip', hparse⟩
              · exact Or.inl hold
            · exact Or.inr ⟨i, nn, Nat.lt_succ_of_lt hi, h1, h2⟩

/-- C3 counterexample: extraction keeps the raw captured path as the
top-level key, so a token whose captured path contains backslashes is
stored under a key that differs from its own normalization, and the event
handler's lookup by normalized path misses it. -/
theorem claim3_keys_counterexample :
    (mapGet (extractFileLocations true (Except.ok "\\src\\a.c:5")
        defaultSkip linuxParse []) "\\src\\a.c").isSome = true ∧
      getActiveEditorFilePath "Linux" "\\src\\a.c" ≠ some "\\src\\a.c" ∧
      mapGet (extractFileLocations true (Except.ok "\\src\\a.c:5")
        defaultSkip linuxParse []) "/src/a.c" = none := by
  decide

/-- C3 amended: every top-level key of the index produced by extraction on
a fresh index is the raw first capture group of some matching, non-skipped
line of the reference text; no normalization is applied to keys, so the
handler's normalized-path lookup finds a sub-mapping only for tokens whose
captured path is already in normalized form. -/
theorem claim3_amended_keys_are_raw_captures (skip : String → Bool)
    (parse : String → Option (String × Nat)) (text : String) (key : String)
    (h : (mapGet (extractFileLocations true (Except.ok text) skip parse []) key).isSome) :
    ∃ i nn, i < (splitLines text).length ∧
      skip ((splitLines text).getD i "") = false ∧
      parse ((splitLines text).getD i "") = some (key, nn) := by
  have h' : (mapGet (extractLines skip parse (splitLines text) []) key).isSome := h
  unfold extractLines at h'
  rcases extractScan_keys skip parse (splitLines text) (splitLines text).length
      (splitLines text).length [] key h' with hin | ⟨i, nn, hi, h1, h2⟩
  · simp [mapGet] at hin
  · exact ⟨i, nn, hi, h1, h2⟩

/-- C3 witness: the key stored for the backslash token is the raw capture
from line 0 of the one-line reference text. -/
theorem claim3_amended_keys_witness :
    ∃ i nn, i < (splitLines "\\src\\a.c:5").length ∧
      defaultSkip ((splitLines "\\src\\a.c:5").getD i "") = false ∧
      linuxParse ((splitLines "\\src\\a.c:5").getD i "") = some ("\\src\\a.c", nn) :=
  claim3_amended_keys_are_raw_captures defaultSkip linuxParse "\\src\\a.c:5"
    "\\src\\a.c" (by decide)

/-! ## Normalization lemmas (claim C8) -/

theorem toNat_upperChar (c : Char) (h1 : 97 ≤ c.toNat) (h2 : c.toNat ≤ 122) :
    (upperChar c).toNat = c.toNat - 32 := by
  have hv : (c.toNat - 32).isValidChar := Or.inl (by omega)
  simp only [upperChar, if_pos (And.intro h1 h2)]
  simp [Char.ofNat, hv]
  simp [Char.ofNatAux, Char.toNat, UInt32.toNat, BitVec.toNat_ofNatLt]

theorem upperChar_eq_of_not (c : Char) (h : ¬ (97 ≤ c.toNat ∧ c.toNat ≤ 122)) :
    upperChar c = c := by
  simp only [upperChar, if_neg h]

theorem isAsciiAlpha_upperChar (c : Char) (h : isAsciiAlpha c = true) :
    isAsciiAlpha (upperChar c) = true := by
  simp only [isAsciiAlpha, decide_eq_true_eq] at h ⊢
  rcases h with ⟨h1, h2⟩ | ⟨h1, h2⟩
  · rw [toNat_upperChar c (by simpa using h1) (by simpa using h2)]
    omega
  · rw [upperChar_eq_of_not c (by omega)]
    omega

theorem upperChar_idem (c : Char) : upperChar (upperChar c) = upperChar c := by
  by_cases h : 97 ≤ c.toNat ∧ c.toNat ≤ 122
  · have ht := toNat_upperChar c h.1 h.2
    rw [upperChar_eq_of_not (upperChar c) (by omega)]
  · rw [upperChar_eq_of_not c h, upperChar_eq_of_not c h]

theorem normSlash_of_alpha (c : Char) (h : isAsciiAlpha c = true) :
    normSlash c = c := by
  have hne : c ≠ '\\' := by
    intro hc
    rw [hc] at h
    exact absurd h (by decide)
  simp [normSlash, hne]

theorem normSlash_idem (c : Char) : normSlash (normSlash c) = normSlash c := by
  by_cases h : c = '\\'
  · simp [normSlash, h]
  · simp [normSlash, h]

theorem map_normSlash_idem (l : List Char) :
    (l.map normSlash).map normSlash = l.map normSlash := by
  rw [List.map_map]
  exact List.map_congr_left (fun c _ => normSlash_idem c)

theorem winDrive_map_normSlash (nl : List Char) (h : nl.map normSlash = nl) :
    (winDrive nl).map normSlash = winDrive nl := by
  rcases nl with _ | ⟨c, _ | ⟨d, _ | ⟨s, tail⟩⟩⟩
  · exact h
  · exact h
  · exact h
  · show (winDrive (c :: d :: s :: tail)).map normSlash = winDrive (c :: d :: s :: tail)
    by_cases hcond : d = ':' ∧ s = '/' ∧ isAsciiAlpha c ∧ tail.all dotOk
    · rw [show winDrive (c :: d :: s :: tail)
          = upperChar c :: ':' :: '/' :: tail from by rw [winDrive, if_pos hcond]]
      simp only [List.map_cons] at h ⊢
      have htail : tail.map normSlash = tail := by
        injection h with _ h'
        injection h' with _ h''
        injection h'' with _ h'''
      rw [htail, normSlash_of_alpha (upperChar c) (isAsciiAlpha_upperChar c hcond.2.2.1)]
      rw [show normSlash ':' = ':' from rfl, show normSlash '/' = '/' from rfl]
    · rw [show winDrive (c :: d :: s :: tail)
          = c :: d :: s :: tail from by rw [winDrive, if_neg hcond]]
      exact h

theorem winDrive_idem (nl : List Char) : winDrive (winDrive nl) = winDrive nl := by
  rcases nl with _ | ⟨c, _ | ⟨d, _ | ⟨s, tail⟩⟩⟩
  · rfl
  · rfl
  · rfl
  · by_cases hcond : d = ':' ∧ s = '/' ∧ isAsciiAlpha c ∧ tail.all dotOk
    · rw [show winDrive (c :: d :: s :: tail)
          = upperChar c :: ':' :: '/' :: tail from by rw [winDrive, if_pos hcond]]
      have hcond2 : (':' : Char) = ':' ∧ ('/' : Char) = '/' ∧
          isAsciiAlpha (upperChar c) ∧ tail.all dotOk :=
        ⟨rfl, rfl, isAsciiAlpha_upperChar c hcond.2.2.1, hcond.2.2.2⟩
      rw [winDrive, if_pos hcond2, upperChar_idem]
    · rw [show winDrive (c :: d :: s :: tail)
          = c :: d :: s :: tail from by rw [winDrive, if_neg hcond]]
      rw [winDrive, if_neg hcond]

theorem winDrive_length (nl : List Char) : (winDrive nl).length = nl.length := by
  rcases nl with _ | ⟨c, _ | ⟨d, _ | ⟨s, tail⟩⟩⟩
  · rfl
  · rfl
  · rfl
  · by_cases hcond : d = ':' ∧ s = '/' ∧ isAsciiAlpha c ∧ tail.all dotOk
    · rw [winDrive, if_pos hcond]
      simp
    · rw [winDrive, if_neg hcond]

theorem normalizeChars_idem (os : String) (l : List Char) :
    normalizeChars os (normalizeChars os l) = normalizeChars os l := by
  by_cases hos : os = "Windows"
  · rw [normalizeChars, normalizeChars, if_pos hos, if_pos hos]
    rw [winDrive_map_normSlash (l.map normSlash) (map_normSlash_idem l)]
    exact winDrive_idem (l.map normSlash)
  · rw [normalizeChars, normalizeChars, if_neg hos, if_neg hos]
    exact map_normSlash_idem l

theorem normalizeChars_length (os : String) (l : List Char) :
    (normalizeChars os l).length = l.length := by
  by_cases hos : os = "Windows"
  · rw [normalizeChars, if_pos hos, winDrive_length]
    exact List.length_map l normSlash
  · rw [normalizeChars, if_neg hos]
    exact List.length_map l normSlash

/-- C8: path normalization is idempotent for every platform name and path,
on Windows a lowercase drive with forward slashes and an uppercase drive
with backslashes normalize identically, and the empty path yields the
undefined result. -/
theorem claim8_normalization_algebra :
    (∀ os p : String, Option.bind (getActiveEditorFilePath os p) (getActiveEditorFilePath os)
        = getActiveEditorFilePath os p) ∧
      getActiveEditorFilePath "Windows" "c:/x" = getActiveEditorFilePath "Windows" "C:\\x" ∧
      ∀ os : String, getActiveEditorFilePath os "" = none := by
  refine ⟨?_, by decide, fun os => rfl⟩
  intro os p
  by_cases hp : p = ""
  · subst hp; rfl
  · rw [getActiveEditorFilePath, if_neg hp, Option.some_bind]
    have hq : (⟨normalizeChars os p.data⟩ : String) ≠ "" := by
      intro hc
      have hlen := congrArg (fun s : String => s.data.length) hc
      simp only [normalizeChars_length] at hlen
      apply hp
      have : p.data = [] := List.length_eq_zero.mp hlen
      cases p with
      | mk data => simp only at this; rw [this]
    rw [getActiveEditorFilePath, if_neg hq]
    exact congrArg some (congrArg String.mk (normalizeChars_idem os p.data))

/-! ## Synchronization engine (extension.ts)

Editors are modelled as records carrying the object identity (id), the file
system path of the document, the uri scheme, the current selection line and
the document lines.  JavaScript object identity between stored editor
references and the event editor is modelled by id equality; because the
stored reference aliases the live object, reads of a stored editor whose id
matches the event editor see the event editor's current state, which the
embedding realizes by refreshing the stored snapshot at the start of the
handler. -/

structure Editor where
  id : Nat
  fsPath : String
  scheme : String
  line : Nat
  docLines : List String
deriving DecidableEq, Repr

/-- Embeds the per-role document class of extension.ts (fields editor,
document, light, line, oldlines, path). -/
structure DocumentState where
  editor : Option Editor
  document : Option String
  light : Bool
  line : Option Int
  oldlines : Option Nat
  path : Option String
deriving DecidableEq, Repr

/-- Embeds the configuration flags of extension.ts.  The regexes are passed
to the operations as abstract functions. -/
structure Config where
  filepath : String
  osName : String
  isFeatureEnabled : Bool
  isFeatureEnabled1 : Bool
  intercept : Bool
  state : Bool
  error : Bool
deriving DecidableEq, Repr

/-- Whole mutable state of the extension: the two roles, the configuration
and the static hashtable fields. -/
structure SyncState where
  master : DocumentState
  assistant : DocumentState
  config : Config
  fileLocationsMap : LocationsMap
  currentActiveFileLocationMap : LineMap
  locationData : Option FileLocationData
deriving DecidableEq, Repr

/-- Host side effects recorded by the embedding, in program order. -/
inductive Action where
  | clearDecor (editorId : Nat)
  | reveal (editorId : Nat) (line : Int)
  | highlightCall (editorId : Nat) (startLine : Option Int) (lineCount : Nat)
  | openFile (path : String) (line : Int)
  | extractCall (path : String)
  | openDoc (path : String)
  | message (msg : String)
deriving DecidableEq, Repr

/-- Result of a handler body: a normal return or a thrown error, with the
state and trace at the moment of exit. -/
inductive BodyResult where
  | done (s : SyncState) (tr : List Action)
  | err (s : SyncState) (tr : List Action)
deriving DecidableEq, Repr

/-- JavaScript triple-equality between a stored editor reference and the
event editor (false when the reference is undefined). -/
def editorIs (o : Option Editor) (ev : Editor) : Bool :=
  match o with
  | some e => e.id = ev.id
  | none => false

/-- Live view of a stored editor reference given the event editor's current
state: the same object is seen with its current fields. -/
def liveEditor (o : Option Editor) (ev : Editor) : Option Editor :=
  o.map (fun e => if e.id = ev.id then ev else e)

/-- Outcome of the upward scan over the master document (the for loop of
the master-to-assistant branch): continue to the next line, break out to
the commit, return early from the handler, throw (lineAt out of range), or
fall through past line 0. -/
inductive ScanRes where
  | cont (s : SyncState) (tr : List Action)
  | brk (s : SyncState) (tr : List Action)
  | ret (s : SyncState) (tr : List Action)
  | thrown (s : SyncState) (tr : List Action)
  | fallthrough (s : SyncState) (tr : List Action)
deriving DecidableEq, Repr

/-- One iteration of the upward scan at line index i of the master
document. -/
def scanStep (skip : String → Bool) (parse : String → Option (String × Nat))
    (openOracle : String → Int → Option Editor) (mEd aEd : Editor)
    (s : SyncState) (tr : List Action) (i : Nat) : ScanRes :=
  if mEd.docLines.length ≤ i then ScanRes.thrown s tr
  else
    let t := mEd.docLines.getD i ""
    if skip t then ScanRes.cont s tr
    else
      match parse t with
      | none => ScanRes.cont s tr
      | some (p, ln) =>
          if s.assistant.path = some p then
            let s := { s with
              locationData := mapGet s.currentActiveFileLocationMap ln,
              assistant.line := some ((ln : Int) - 1) }
            ScanRes.brk s (tr ++ [Action.reveal aEd.id ((ln : Int) - 1)])
          else
            let tr := tr ++ [Action.openFile p ((ln : Int) - 1)]
            match openOracle p ((ln : Int) - 1) with
            | none => ScanRes.ret s tr
            | some newEd =>
                let s := { s with
                  assistant.editor := some newEd,
                  assistant.path := getActiveEditorFilePath s.config.osName newEd.fsPath }
                match s.assistant.path with
                | none => ScanRes.ret s tr
                | some _ =>
                    match mapGet s.fileLocationsMap p with
                    | none => ScanRes.ret s tr
                    | some inner =>
                        let s := { s with
                          currentActiveFileLocationMap := inner,
                          locationData := mapGet inner ln,
                          assistant.line := some ((ln : Int) - 1) }
                        ScanRes.brk s tr

/-- The upward scan itself, from line index i down to 0: a continue at a
positive index moves to the next smaller index, a continue at index 0 ends
the loop (fallthrough to the commit), and any other step outcome ends the
scan at once. -/
def masterScan (skip : String → Bool) (parse : String → Option (String × Nat))
    (openOracle : String → Int → Option Editor) (mEd aEd : Editor) :
    Nat → SyncState → List Action → ScanRes
  | 0, s, tr =>
      match scanStep skip parse openOracle mEd aEd s tr 0 with
      | ScanRes.cont s' tr' => ScanRes.fallthrough s' tr'
      | r => r
  | k + 1, s, tr =>
      match scanStep skip parse openOracle mEd aEd s tr (k + 1) with
      | ScanRes.cont s' tr' => masterScan skip parse openOracle mEd aEd k s' tr'
      | r => r

theorem masterScan_zero (skip : String → Bool) (parse : String → Option (String × Nat))
    (openOracle : String → Int → Option Editor) (mEd aEd : Editor)
    (s : SyncState) (tr : List Action) :
    masterScan skip parse openOracle mEd aEd 0 s tr =
      match scanStep skip parse openOracle mEd aEd s tr 0 with
      | ScanRes.cont s' tr' => ScanRes.fallthrough s' tr'
      | r => r := rfl

theorem masterScan_succ (skip : String → Bool) (parse : String → Option (String × Nat))
    (openOracle : String → Int → Option Editor) (mEd aEd : Editor) (k : Nat)
    (s : SyncState) (tr : List Action) :
    masterScan skip parse openOracle mEd aEd (k + 1) s tr =
      match scanStep skip parse openOracle mEd aEd s tr (k + 1) with
      | ScanRes.cont s' tr' => masterScan skip parse openOracle mEd aEd k s' tr'
      | r => r := rfl

/-- Commit phase of the handler: update both previous-line trackers from
the live selections, call highlightLines on the assistant (a single line at
the stored target, or an undefined start when no target was ever set) and
on the master with the entry's offset and span; accessing the fields of an
absent entry throws. -/
def commitPhase (mEd aEd : Editor) (s : SyncState) (tr : List Action) : BodyResult :=
  let aCur := s.assistant.editor.getD aEd
  let s := { s with
    master.oldlines := some mEd.line,
    assistant.oldlines := some aCur.line }
  let tr := tr ++ [Action.highlightCall aCur.id s.assistant.line 1]
  match s.locationData with
  | none => BodyResult.err s tr
  | some d =>
      BodyResult.done
        { s with master.light := true, assistant.light := true }
        (tr ++ [Action.highlightCall mEd.id (some (d.originalFileIndex : Int))
          d.highlightLineCount])

/-- Direction dispatch and the two flow branches of the handler. -/
def dispatchPhase (skip : String → Bool) (parse : String → Option (String × Nat))
    (openOracle : String → Int → Option Editor) (mEd aEd : Editor)
    (s : SyncState) (tr : List Action) : BodyResult :=
  if s.assistant.oldlines ≠ some aEd.line then
    let s := { s with
      assistant.oldlines := some aEd.line,
      locationData := mapGet s.currentActiveFileLocationMap (aEd.line + 1),
      assistant.line := some (aEd.line : Int) }
    match s.locationData with
    | none => BodyResult.done s tr
    | some d =>
        commitPhase mEd aEd s (tr ++ [Action.reveal mEd.id (d.originalFileIndex : Int)])
  else if s.config.isFeatureEnabled1 = false then
    let s := { s with master.oldlines := some mEd.line }
    match masterScan skip parse openOracle mEd aEd mEd.line s tr with
    | ScanRes.brk s' tr' => commitPhase mEd aEd s' tr'
    | ScanRes.fallthrough s' tr' => commitPhase mEd aEd s' tr'
    | ScanRes.ret s' tr' => BodyResult.done s' tr'
    | ScanRes.thrown s' tr' => BodyResult.err s' tr'
    | ScanRes.cont s' tr' => BodyResult.done s' tr'
  else BodyResult.done s tr

/-- Highlight reset and the no-op filter, then dispatch. -/
def afterRolePhase (skip : String → Bool) (parse : String → Option (String × Nat))
    (openOracle : String → Int → Option Editor)
    (s : SyncState) : BodyResult :=
  match s.assistant.editor, s.master.editor with
  | some aEd, some mEd =>
      if s.master.oldlines = some mEd.line ∧ s.assistant.oldlines = some aEd.line then
        BodyResult.done s []
      else
        let pair1 :=
          if s.master.light then
            ({ s with master.light := false }, [Action.clearDecor mEd.id])
          else (s, [])
        let pair2 :=
          if pair1.1.assistant.light then
            ({ pair1.1 with assistant.light := false }, pair1.2 ++ [Action.clearDecor aEd.id])
          else pair1
        dispatchPhase skip parse openOracle mEd aEd pair2.1 pair2.2
  | _, _ => BodyResult.done s []

/-- Body of the selection-change handler, after the guard and the latch
acquisition: role resolution, then the filter, reset and dispatch. -/
def handleBody (skip : String → Bool) (parse : String → Option (String × Nat))
    (openOracle : String → Int → Option Editor)
    (s0 : SyncState) (ev : Editor) : BodyResult :=
  let s := { s0 with
    master.editor := liveEditor s0.master.editor ev,
    assistant.editor := liveEditor s0.assistant.editor ev }
  if editorIs s.master.editor ev = false ∧ editorIs s.assistant.editor ev = false then
    let s := { s with
      assistant.editor := some ev,
      assistant.path := getActiveEditorFilePath s.config.osName ev.fsPath }
    match s.assistant.path with
    | none => BodyResult.done s []
    | some p =>
        match mapGet s.fileLocationsMap p with
        | none => BodyResult.done s []
        | some inner =>
            afterRolePhase skip parse openOracle
              { s with currentActiveFileLocationMap := inner }
  else afterRolePhase skip parse openOracle s

/-- Shallow embedding of the selection-change event handler
(selectionChangeDisposable): the guard drops the event when mapping is
disabled, the uri scheme is not file, the latch is held or a configuration
error is pending; otherwise the latch is acquired, the body runs, a thrown
error is surfaced as a message, and the latch is released on both exits. -/
def handleSelectionChange (skip : String → Bool) (parse : String → Option (String × Nat))
    (openOracle : String → Int → Option Editor)
    (s : SyncState) (ev : Editor) : SyncState × List Action :=
  if s.config.isFeatureEnabled = true ∨ ev.scheme ≠ "file" ∨ s.config.intercept = true ∨
      s.config.error = true then (s, [])
  else
    match handleBody skip parse openOracle { s with config.intercept := true } ev with
    | BodyResult.done s' tr => ({ s' with config.intercept := false }, tr)
    | BodyResult.err s' tr =>
        ({ s' with config.intercept := false }, tr ++ [Action.message "Execution failed"])

/-! ## Re-entrancy latch (claim C4) -/

/-- C4: while the latch is held a second invocation of the handler returns
immediately with the state unchanged and no actions (the event is dropped,
not queued); and on every run of the handler body, early returns and thrown
errors included, the latch is false again after the handler exits. -/
theorem claim4_latch_drop_and_release :
    (∀ (skip : String → Bool) (parse : String → Option (String × Nat))
        (openOracle : String → Int → Option Editor) (s : SyncState) (ev : Editor),
      s.config.intercept = true →
        handleSelectionChange skip parse openOracle s ev = (s, [])) ∧
    (∀ (skip : String → Bool) (parse : String → Option (String × Nat))
        (openOracle : String → Int → Option Editor) (s : SyncState) (ev : Editor),
      (handleSelectionChange skip parse openOracle s ev).1.config.intercept = false ∨
        handleSelectionChange skip parse openOracle s ev = (s, [])) := by
  constructor
  · intro skip parse openOracle s ev h
    rw [handleSelectionChange, if_pos (Or.inr (Or.inr (Or.inl h)))]
  · intro skip parse openOracle s ev
    by_cases hg : s.config.isFeatureEnabled = true ∨ ev.scheme ≠ "file" ∨
        s.config.intercept = true ∨ s.config.error = true
    · right
      rw [handleSelectionChange, if_pos hg]
    · left
      rw [handleSelectionChange, if_neg hg]
      cases handleBody skip parse openOracle { s with config.intercept := true } ev with
      | done s' tr => rfl
      | err s' tr => rfl

/-! ## Fixtures used by witnesses and counterexamples -/

/-- Fixture: a source-file editor on line 5. -/
def egAssistantEditor : Editor := ⟨1, "/src/a.c", "file", 5, []⟩

/-- Fixture: a reference-file editor whose document holds one token line. -/
def egMasterEditor : Editor := ⟨0, "/ref.log", "file", 0, ["/src/a.c:10"]⟩

/-- Fixture: a state in Bidirectional mode tracking the two fixture
editors, whose active sub-mapping has an entry only for source line 10. -/
def egState : SyncState :=
  { master := ⟨some egMasterEditor, some "/ref.log", false, none, some 0, some "/ref.log"⟩,
    assistant := ⟨some egAssistantEditor, none, false, none, some 4, some "/src/a.c"⟩,
    config := ⟨"/ref.log", "Linux", false, false, false, true, false⟩,
    fileLocationsMap := [("/src/a.c", [(10, ⟨0, 1⟩)])],
    currentActiveFileLocationMap := [(10, ⟨0, 1⟩)],
    locationData := none }

/-- C4 witness: a latched state drops the event unchanged, and a concrete
run on an unlatched state ends with the latch released. -/
theorem claim4_latch_witness :
    handleSelectionChange defaultSkip defaultParse (fun _ _ => none)
        { egState with config.intercept := true } egAssistantEditor
      = ({ egState with config.intercept := true }, []) ∧
      ((handleSelectionChange defaultSkip defaultParse (fun _ _ => none)
          egState egAssistantEditor).1.config.intercept = false ∨
        handleSelectionChange defaultSkip defaultParse (fun _ _ => none)
          egState egAssistantEditor = (egState, [])) :=
  ⟨claim4_latch_drop_and_release.1 defaultSkip defaultParse (fun _ _ => none)
      { egState with config.intercept := true } egAssistantEditor rfl,
    claim4_latch_drop_and_release.2 defaultSkip defaultParse (fun _ _ => none)
      egState egAssistantEditor⟩

/-! ## Assistant-side lookup miss (claim C5) -/

/-- C5 counterexample: in a cycle where the assistant line changed and the
active sub-mapping has no entry for line + 1, the handler aborts with no
actions, but the assistant-side previous-line tracker IS advanced to the
current line, contradicting the claim that the trackers are not advanced. -/
theorem claim5_tracker_counterexample :
    mapGet egState.currentActiveFileLocationMap (egAssistantEditor.line + 1) = none ∧
      egState.assistant.oldlines ≠ some egAssistantEditor.line ∧
      (handleSelectionChange defaultSkip defaultParse (fun _ _ => none)
          egState egAssistantEditor).2 = [] ∧
      (handleSelectionChange defaultSkip defaultParse (fun _ _ => none)
          egState egAssistantEditor).1.assistant.oldlines = some egAssistantEditor.line ∧
      (handleSelectionChange defaultSkip defaultParse (fun _ _ => none)
          egState egAssistantEditor).1.assistant.oldlines ≠ egState.assistant.oldlines := by
  decide

/-- C5 amended: when the assistant's line changed and the active sub-mapping
has no entry for assistant.line + 1, the cycle aborts with no reveal, no
highlight and no navigation (only decoration clearing may appear in the
trace), the master-side tracker is not advanced, the lookup result is
recorded as absent — but the assistant-side previous-line tracker IS
advanced to the current line before the abort. -/
theorem claim5_amended_lookup_miss (skip : String → Bool)
    (parse : String → Option (String × Nat)) (openOracle : String → Int → Option Editor)
    (s : SyncState) (ev mEd : Editor)
    (hfe : s.config.isFeatureEnabled = false) (hint : s.config.intercept = false)
    (herr : s.config.error = false) (hscheme : ev.scheme = "file")
    (hased : s.assistant.editor = some ev)
    (hmed : s.master.editor = some mEd) (hid : mEd.id ≠ ev.id)
    (hchanged : s.assistant.oldlines ≠ some ev.line)
    (hmiss : mapGet s.currentActiveFileLocationMap (ev.line + 1) = none) :
    (handleSelectionChange skip parse openOracle s ev).1.assistant.oldlines
        = some ev.line ∧
      (handleSelectionChange skip parse openOracle s ev).1.master.oldlines
        = s.master.oldlines ∧
      (handleSelectionChange skip parse openOracle s ev).1.locationData = none ∧
      ∀ a ∈ (handleSelectionChange skip parse openOracle s ev).2,
        a = Action.clearDecor mEd.id ∨ a = Action.clearDecor ev.id := by
  obtain ⟨⟨med, mdoc, ml, mln, mol, mp⟩, ⟨aed, adoc, al, aln, aol, ap⟩,
    ⟨fp, osn, fe, fe1, ic, st, er⟩, flm, calm, ld⟩ := s
  simp only at hfe hint herr hased hmed hchanged hmiss
  subst hfe hint herr hased hmed
  have hidb : (mEd.id = ev.id) = False := by simp [hid]
  cases ml <;> cases al <;>
    simp [handleSelectionChange, handleBody, liveEditor, editorIs, afterRolePhase,
      dispatchPhase, hscheme, hidb, hchanged, hmiss]

/-- C5 witness: the amended behavior on the fixture state whose sub-mapping
has no entry for line 6. -/
theorem claim5_amended_lookup_miss_witness :
    (handleSelectionChange defaultSkip defaultParse (fun _ _ => none)
        egState egAssistantEditor).1.assistant.oldlines = some egAssistantEditor.line ∧
      (handleSelectionChange defaultSkip defaultParse (fun _ _ => none)
          egState egAssistantEditor).1.master.oldlines = egState.master.oldlines ∧
      (handleSelectionChange defaultSkip defaultParse (fun _ _ => none)
          egState egAssistantEditor).1.locationData = none ∧
      ∀ a ∈ (handleSelectionChange defaultSkip defaultParse (fun _ _ => none)
          egState egAssistantEditor).2,
        a = Action.clearDecor egMasterEditor.id ∨ a = Action.clearDecor egAssistantEditor.id :=
  claim5_amended_lookup_miss defaultSkip defaultParse (fun _ _ => none) egState
    egAssistantEditor egMasterEditor rfl rfl rfl rfl rfl rfl (by decide) (by decide) (by decide)

/-! ## Mode gating (claim C7) -/

theorem masterScan_of_brk (skip : String → Bool) (parse : String → Option (String × Nat))
    (openOracle : String → Int → Option Editor) (mEd aEd : Editor) (i : Nat)
    (s : SyncState) (tr : List Action) (s' : SyncState) (tr' : List Action)
    (h : scanStep skip parse openOracle mEd aEd s tr i = ScanRes.brk s' tr') :
    masterScan skip parse openOracle mEd aEd i s tr = ScanRes.brk s' tr' := by
  cases i with
  | zero => rw [masterScan_zero, h]
  | succ k => rw [masterScan_succ, h]

/-- C7: in Single mode (mapping enabled, bidirectional disabled) an event
whose only changed line is the master view's line performs no
assistant-side navigation, lookup or highlight — the lookup state, both
trackers, the assistant target and the active sub-mapping are untouched and
the trace holds at most decoration clearing; in Bidirectional mode the same
event runs the upward scan, and when the scan resolves on the master's own
line it reveals the assistant at the captured line and records the entry. -/
theorem claim7_mode_gating :
    (∀ (skip : String → Bool) (parse : String → Option (String × Nat))
        (openOracle : String → Int → Option Editor) (s : SyncState) (ev aEd : Editor),
      s.config.isFeatureEnabled = false → s.config.intercept = false →
      s.config.error = false → ev.scheme = "file" →
      s.master.editor = some ev → s.assistant.editor = some aEd → aEd.id ≠ ev.id →
      s.assistant.oldlines = some aEd.line → s.master.oldlines ≠ some ev.line →
      s.config.isFeatureEnabled1 = true →
      (handleSelectionChange skip parse openOracle s ev).1.locationData = s.locationData ∧
        (handleSelectionChange skip parse openOracle s ev).1.assistant.oldlines
          = s.assistant.oldlines ∧
        (handleSelectionChange skip parse openOracle s ev).1.master.oldlines
          = s.master.oldlines ∧
        (handleSelectionChange skip parse openOracle s ev).1.assistant.line
          = s.assistant.line ∧
        (handleSelectionChange skip parse openOracle s ev).1.currentActiveFileLocationMap
          = s.currentActiveFileLocationMap ∧
        (handleSelectionChange skip parse openOracle s ev).1.assistant.editor = some aEd ∧
        ∀ a ∈ (handleSelectionChange skip parse openOracle s ev).2,
          a = Action.clearDecor ev.id ∨ a = Action.clearDecor aEd.id) ∧
    (∀ (skip : String → Bool) (parse : String → Option (String × Nat))
        (openOracle : String → Int → Option Editor) (s : SyncState) (ev aEd : Editor)
        (p : String) (ln : Nat) (d : FileLocationData),
      s.config.isFeatureEnabled = false → s.config.intercept = false →
      s.config.error = false → ev.scheme = "file" →
      s.master.editor = some ev → s.assistant.editor = some aEd → aEd.id ≠ ev.id →
      s.assistant.oldlines = some aEd.line → s.master.oldlines ≠ some ev.line →
      s.config.isFeatureEnabled1 = false →
      ev.line < ev.docLines.length →
      skip (ev.docLines.getD ev.line "") = false →
      parse (ev.docLines.getD ev.line "") = some (p, ln) →
      s.assistant.path = some p →
      mapGet s.currentActiveFileLocationMap ln = some d →
      Action.reveal aEd.id ((ln : Int) - 1)
          ∈ (handleSelectionChange skip parse openOracle s ev).2 ∧
        (handleSelectionChange skip parse openOracle s ev).1.locationData = some d ∧
        (handleSelectionChange skip parse openOracle s ev).1.assistant.line
          = some ((ln : Int) - 1) ∧
        (handleSelectionChange skip parse openOracle s ev).1.master.light = true) := by
  constructor
  · intro skip parse openOracle s ev aEd hfe hint herr hscheme hmed hased hid haol hmch hfe1
    obtain ⟨⟨med, mdoc, ml, mln, mol, mp⟩, ⟨aed, adoc, al, aln, aol, ap⟩,
      ⟨fp, osn, fe, fe1, ic, st, er⟩, flm, calm, ld⟩ := s
    simp only at hfe hint herr hmed hased haol hmch hfe1
    subst hfe hint herr hmed hased haol hfe1
    have hidb : (aEd.id = ev.id) = False := by simp [hid]
    cases ml <;> cases al <;>
      simp [handleSelectionChange, handleBody, liveEditor, editorIs, afterRolePhase,
        dispatchPhase, hscheme, hidb, hmch]
  · intro skip parse openOracle s ev aEd p ln d hfe hint herr hscheme hmed hased hid
      haol hmch hfe1 hlen hskipt hparset hpath hentry
    obtain ⟨⟨med, mdoc, ml, mln, mol, mp⟩, ⟨aed, adoc, al, aln, aol, ap⟩,
      ⟨fp, osn, fe, fe1, ic, st, er⟩, flm, calm, ld⟩ := s
    simp only at hfe hint herr hmed hased haol hmch hfe1 hpath hentry
    subst hfe hint herr hmed hased haol hfe1 hpath
    have hidb : (aEd.id = ev.id) = False := by simp [hid]
    have hnotle : ¬ (ev.docLines.length ≤ ev.line) := Nat.not_le.mpr hlen
    simp only [List.getD, List.get?_eq_getElem?] at hskipt hparset
    have hms : ∀ tr0 : List Action,
        masterScan skip parse openOracle ev aEd ev.line
          { master := ⟨some ev, mdoc, false, mln, some ev.line, mp⟩,
            assistant := ⟨some aEd, adoc, false, aln, some aEd.line, some p⟩,
            config := ⟨fp, osn, false, false, true, st, false⟩,
            fileLocationsMap := flm, currentActiveFileLocationMap := calm,
            locationData := ld } tr0
          = ScanRes.brk
              { master := ⟨some ev, mdoc, false, mln, some ev.line, mp⟩,
                assistant := ⟨some aEd, adoc, false, some ((ln : Int) - 1),
                  some aEd.line, some p⟩,
                config := ⟨fp, osn, false, false, true, st, false⟩,
                fileLocationsMap := flm, currentActiveFileLocationMap := calm,
                locationData := some d }
              (tr0 ++ [Action.reveal aEd.id ((ln : Int) - 1)]) := by
      intro tr0
      apply masterScan_of_brk
      rw [scanStep]
      simp [hnotle, hskipt, hparset, hentry]
    cases ml <;> cases al <;>
      simp [handleSelectionChange, handleBody, liveEditor, editorIs, afterRolePhase,
        dispatchPhase, hms, commitPhase, hscheme, hidb, hmch]

/-- Fixture: a Single-mode state in which only the master's line changed. -/
def egStateSingle : SyncState :=
  { master := ⟨some egMasterEditor, some "/ref.log", false, none, some 1, some "/ref.log"⟩,
    assistant := ⟨some egAssistantEditor, none, false, none, some 5, some "/src/a.c"⟩,
    config := ⟨"/ref.log", "Linux", false, true, false, false, false⟩,
    fileLocationsMap := [("/src/a.c", [(10, ⟨0, 1⟩)])],
    currentActiveFileLocationMap := [(10, ⟨0, 1⟩)],
    locationData := none }

/-- Fixture: the same state in Bidirectional mode. -/
def egStateDouble : SyncState :=
  { egStateSingle with config.isFeatureEnabled1 := false }

/-- C7 witness: both mode behaviors instantiated on the fixture states. -/
theorem claim7_mode_gating_witness :
    ((handleSelectionChange defaultSkip linuxParse (fun _ _ => none)
        egStateSingle egMasterEditor).1.locationData = egStateSingle.locationData ∧
      (handleSelectionChange defaultSkip linuxParse (fun _ _ => none)
          egStateSingle egMasterEditor).1.assistant.oldlines
        = egStateSingle.assistant.oldlines ∧
      (handleSelectionChange defaultSkip linuxParse (fun _ _ => none)
          egStateSingle egMasterEditor).1.master.oldlines
        = egStateSingle.master.oldlines ∧
      (handleSelectionChange defaultSkip linuxParse (fun _ _ => none)
          egStateSingle egMasterEditor).1.assistant.line = egStateSingle.assistant.line ∧
      (handleSelectionChange defaultSkip linuxParse (fun _ _ => none)
          egStateSingle egMasterEditor).1.currentActiveFileLocationMap
        = egStateSingle.currentActiveFileLocationMap ∧
      (handleSelectionChange defaultSkip linuxParse (fun _ _ => none)
          egStateSingle egMasterEditor).1.assistant.editor = some egAssistantEditor ∧
      ∀ a ∈ (handleSelectionChange defaultSkip linuxParse (fun _ _ => none)
          egStateSingle egMasterEditor).2,
        a = Action.clearDecor egMasterEditor.id ∨ a = Action.clearDecor egAssistantEditor.id) ∧
    (Action.reveal egAssistantEditor.id ((10 : Int) - 1)
        ∈ (handleSelectionChange defaultSkip linuxParse (fun _ _ => none)
          egStateDouble egMasterEditor).2 ∧
      (handleSelectionChange defaultSkip linuxParse (fun _ _ => none)
          egStateDouble egMasterEditor).1.locationData = some ⟨0, 1⟩ ∧
      (handleSelectionChange defaultSkip linuxParse (fun _ _ => none)
          egStateDouble egMasterEditor).1.assistant.line = some ((10 : Int) - 1) ∧
      (handleSelectionChange defaultSkip linuxParse (fun _ _ => none)
          egStateDouble egMasterEditor).1.master.light = true) :=
  ⟨claim7_mode_gating.1 defaultSkip linuxParse (fun _ _ => none) egStateSingle
      egMasterEditor egAssistantEditor rfl rfl rfl rfl rfl rfl (by decide) rfl
      (by decide) rfl,
    claim7_mode_gating.2 defaultSkip linuxParse (fun _ _ => none) egStateDouble
      egMasterEditor egAssistantEditor "/src/a.c" 10 ⟨0, 1⟩ rfl rfl rfl rfl rfl rfl
      (by decide) rfl (by decide) rfl (by decide) (by decide) (by decide) rfl (by decide)⟩

/-! ## Commands (extension.ts, jumptrace.close and jumptrace.switchover) -/

/-- Embeds the highlight-clearing pattern of the command handlers: when the
role is highlighted its editor's decorations are replaced with the empty
set; dereferencing an absent editor throws (None result). -/
def clearIfLight (d : DocumentState) (tr : List Action) :
    Option (DocumentState × List Action) :=
  if d.light then
    match d.editor with
    | none => none
    | some e => some ({ d with light := false }, tr ++ [Action.clearDecor e.id])
  else some (d, tr)

/-- Body of the jumptrace.close command: reset the three mode flags to
their defaults (mapping off), clear active highlights, inform the user. -/
def closeBody (s : SyncState) : BodyResult :=
  let s := { s with config.isFeatureEnabled := true, config.isFeatureEnabled1 := true,
                    config.state := true }
  match clearIfLight s.master [] with
  | none => BodyResult.err s []
  | some (m, tr) =>
      let s := { s with master := m }
      match clearIfLight s.assistant tr with
      | none => BodyResult.err s tr
      | some (a, tr2) =>
          BodyResult.done { s with assistant := a }
            (tr2 ++ [Action.message "Mapping has been turned off"])

/-- The jumptrace.close command with its try/finally latch handling (the
command has no catch, so a throw still releases the latch). -/
def closeCommand (s : SyncState) : SyncState × List Action :=
  match closeBody { s with config.intercept := true } with
  | BodyResult.done s' tr => ({ s' with config.intercept := false }, tr)
  | BodyResult.err s' tr => ({ s' with config.intercept := false }, tr)

/-- Tail of the jumptrace.switchover command: abort when no master document
is recorded, then make sure an editor for it is visible, showing it again
when necessary (the show may throw). -/
def switchoverTail (visibleHas : String → Bool) (showOracle : String → Option Editor)
    (s : SyncState) (tr : List Action) : BodyResult :=
  match s.master.document with
  | none => BodyResult.done s tr
  | some docPath =>
      let vis :=
        match s.master.editor with
        | some e => visibleHas e.fsPath
        | none => false
      if vis then BodyResult.done s tr
      else
        match showOracle docPath with
        | none => BodyResult.err s tr
        | some ed => BodyResult.done { s with master.editor := some ed } tr

/-- Body of the jumptrace.switchover command: toggle the mode, enable the
flags for the selected mode, and when the index is empty run extraction and
open the reference file beside the current editor (the open may throw);
finally ensure the master view is visible. -/
def switchoverBody (fileExists : Bool) (content : Except String String)
    (skip : String → Bool) (parse : String → Option (String × Nat))
    (openDocOracle : String → Option Editor) (visibleHas : String → Bool)
    (showOracle : String → Option Editor) (s : SyncState) : BodyResult :=
  let s := { s with config.state := !s.config.state }
  let pair :=
    if s.config.state = false then
      ({ s with config.isFeatureEnabled := false },
        [Action.message "Single mapping has been enabled"])
    else
      ({ s with config.isFeatureEnabled := false, config.isFeatureEnabled1 := false },
        [Action.message "Double mapping has been activated"])
  if pair.1.fileLocationsMap = [] then
    let tr := pair.2 ++ [Action.extractCall pair.1.config.filepath]
    let newMap := extractFileLocations fileExists content skip parse pair.1.fileLocationsMap
    let s := { pair.1 with fileLocationsMap := newMap }
    let tr := tr ++ [Action.openDoc s.config.filepath]
    match openDocOracle s.config.filepath with
    | none => BodyResult.err s tr
    | some ed =>
        switchoverTail visibleHas showOracle
          { s with master.document := some s.config.filepath,
                   master.editor := some ed,
                   assistant.editor := some ed } tr
  else switchoverTail visibleHas showOracle pair.1 pair.2

/-- The jumptrace.switchover command with its catch (configuration error
flag plus message) and finally (latch release). -/
def switchoverCommand (fileExists : Bool) (content : Except String String)
    (skip : String → Bool) (parse : String → Option (String × Nat))
    (openDocOracle : String → Option Editor) (visibleHas : String → Bool)
    (showOracle : String → Option Editor) (s : SyncState) : SyncState × List Action :=
  match switchoverBody fileExists content skip parse openDocOracle visibleHas showOracle
      { s with config.intercept := true } with
  | BodyResult.done s' tr => ({ s' with config.intercept := false }, tr)
  | BodyResult.err s' tr =>
      ({ s' with config.error := true, config.intercept := false },
        tr ++ [Action.message "config error\x7d"])

theorem closeCommand_spec (s : SyncState)
    (hml : s.master.light = true → s.master.editor.isSome)
    (hal : s.assistant.light = true → s.assistant.editor.isSome) :
    (closeCommand s).1.fileLocationsMap = s.fileLocationsMap ∧
      (closeCommand s).1.config.isFeatureEnabled = true ∧
      (closeCommand s).1.config.isFeatureEnabled1 = true ∧
      (closeCommand s).1.config.state = true ∧
      (closeCommand s).1.master.light = false ∧
      (closeCommand s).1.assistant.light = false ∧
      ∀ pth, Action.extractCall pth ∉ (closeCommand s).2 := by
  obtain ⟨⟨med, mdoc, ml, mln, mol, mp⟩, ⟨aed, adoc, al, aln, aol, ap⟩,
    ⟨fp, osn, fe, fe1, ic, st, er⟩, flm, calm, ld⟩ := s
  simp only at hml hal
  cases ml with
  | false =>
      cases al with
      | false => simp [closeCommand, closeBody, clearIfLight]
      | true =>
          have ha := hal rfl
          rcases aed with _ | ae
          · simp at ha
          · simp [closeCommand, closeBody, clearIfLight]
  | true =>
      have hm := hml rfl
      rcases med with _ | me
      · simp at hm
      · cases al with
        | false => simp [closeCommand, closeBody, clearIfLight]
        | true =>
            have ha := hal rfl
            rcases aed with _ | ae
            · simp at ha
            · simp [closeCommand, closeBody, clearIfLight]

theorem switchoverTail_spec (visibleHas : String → Bool)
    (showOracle : String → Option Editor) (s : SyncState) (tr : List Action) :
    (∃ med, switchoverTail visibleHas showOracle s tr
        = BodyResult.done { s with master.editor := med } tr) ∨
      switchoverTail visibleHas showOracle s tr = BodyResult.err s tr := by
  rw [switchoverTail]
  cases hd : s.master.document with
  | none =>
      left
      exact ⟨s.master.editor, rfl⟩
  | some dp =>
      cases hme : s.master.editor with
      | none =>
          cases hso : showOracle dp with
          | none => right; simp [hme, hso]
          | some ed => left; exact ⟨some ed, by simp [hme, hso]⟩
      | some me =>
          by_cases hv : visibleHas me.fsPath
          · left
            refine ⟨some me, ?_⟩
            simp only [hme, hv, if_pos]
            rw [← hme]
          · cases hso : showOracle dp with
            | none => right; simp [hme, hv, hso]
            | some ed => left; exact ⟨some ed, by simp [hme, hv, hso]⟩

theorem switchoverCommand_nonempty (fileExists : Bool) (content : Except String String)
    (skip : String → Bool) (parse : String → Option (String × Nat))
    (openDocOracle : String → Option Editor) (visibleHas : String → Bool)
    (showOracle : String → Option Editor) (s : SyncState)
    (hne : s.fileLocationsMap ≠ []) :
    (switchoverCommand fileExists content skip parse openDocOracle visibleHas showOracle
        s).1.fileLocationsMap = s.fileLocationsMap ∧
      ∀ pth, Action.extractCall pth ∉
        (switchoverCommand fileExists content skip parse openDocOracle visibleHas
          showOracle s).2 := by
  obtain ⟨⟨med, mdoc, ml, mln, mol, mp⟩, ⟨aed, adoc, al, aln, aol, ap⟩,
    ⟨fp, osn, fe, fe1, ic, st, er⟩, flm, calm, ld⟩ := s
  simp only at hne
  cases st <;> rcases mdoc with _ | dp <;> rcases med with _ | me <;>
    simp_all [switchoverCommand, switchoverBody, switchoverTail] <;>
    cases hso : showOracle dp <;> (try simp_all) <;>
    cases hvv : visibleHas me.fsPath <;> simp_all

/-- C10: the disable-mapping command leaves the location index unchanged,
resets the mode flags to Off (their defaults) and clears the active
highlights; and because the toggle command re-runs extraction only when the
index is empty, disabling and then re-enabling mapping on a populated index
performs no extraction call (the reference file is not re-read) and the
index is still unchanged. -/
theorem claim10_close_then_toggle_no_reread (fileExists : Bool)
    (content : Except String String) (skip : String → Bool)
    (parse : String → Option (String × Nat)) (openDocOracle : String → Option Editor)
    (visibleHas : String → Bool) (showOracle : String → Option Editor)
    (s : SyncState) (hne : s.fileLocationsMap ≠ [])
    (hml : s.master.light = true → s.master.editor.isSome)
    (hal : s.assistant.light = true → s.assistant.editor.isSome) :
    (closeCommand s).1.fileLocationsMap = s.fileLocationsMap ∧
      (closeCommand s).1.config.isFeatureEnabled = true ∧
      (closeCommand s).1.config.isFeatureEnabled1 = true ∧
      (closeCommand s).1.config.state = true ∧
      (closeCommand s).1.master.light = false ∧
      (closeCommand s).1.assistant.light = false ∧
      (switchoverCommand fileExists content skip parse openDocOracle visibleHas showOracle
          (closeCommand s).1).1.fileLocationsMap = s.fileLocationsMap ∧
      (∀ pth, Action.extractCall pth ∉ (closeCommand s).2) ∧
      ∀ pth, Action.extractCall pth ∉
        (switchoverCommand fileExists content skip parse openDocOracle visibleHas
          showOracle (closeCommand s).1).2 := by
  obtain ⟨h1, h2, h3, h4, h5, h6, h7⟩ := closeCommand_spec s hml hal
  have hne' : (closeCommand s).1.fileLocationsMap ≠ [] := by rw [h1]; exact hne
  obtain ⟨h8, h9⟩ := switchoverCommand_nonempty fileExists content skip parse
    openDocOracle visibleHas showOracle (closeCommand s).1 hne'
  exact ⟨h1, h2, h3, h4, h5, h6, by rw [h8, h1], h7, h9⟩

/-- C10 witness: on the bidirectional fixture state with its one-entry
index, closing and toggling keeps the index and never calls extraction. -/
theorem claim10_close_then_toggle_witness :
    (closeCommand egState).1.fileLocationsMap = egState.fileLocationsMap ∧
      (closeCommand egState).1.config.isFeatureEnabled = true ∧
      (closeCommand egState).1.config.isFeatureEnabled1 = true ∧
      (closeCommand egState).1.config.state = true ∧
      (closeCommand egState).1.master.light = false ∧
      (closeCommand egState).1.assistant.light = false ∧
      (switchoverCommand true (Except.ok "") defaultSkip defaultParse (fun _ => none)
          (fun _ => true) (fun _ => none) (closeCommand egState).1).1.fileLocationsMap
        = egState.fileLocationsMap ∧
      (∀ pth, Action.extractCall pth ∉ (closeCommand egState).2) ∧
      ∀ pth, Action.extractCall pth ∉
        (switchoverCommand true (Except.ok "") defaultSkip defaultParse (fun _ => none)
          (fun _ => true) (fun _ => none) (closeCommand egState).1).2 :=
  claim10_close_then_toggle_no_reread true (Except.ok "") defaultSkip defaultParse
    (fun _ => none) (fun _ => true) (fun _ => none) egState (by decide)
    (fun _ => by decide) (fun _ => by decide)

end JumpTrace
